import Mathlib

/-!
Shallow embedding of MortgageCalculator (mortgage.py) in Lean 4.

Numbers are modelled by exact real arithmetic (the Python code uses
floats); payment counts and terms are integers, as in the source, and
loops over xrange iterate (toNat) many times, matching the empty
iteration of xrange on a non-positive argument.
-/

/-- State of a `Mortgage` object: the seven slots of the Python class.
`rate` stores the monthly growth factor, `term` the term in months. -/
structure Mortgage where
  housevalue : ℝ
  initloan : ℝ
  loan : ℝ
  rate : ℝ
  term : ℤ
  cashbalance : ℝ
  repayment : ℝ

/-- The denominator of calc_repayment:
sum(rate ** n for n in xrange(0, term)). -/
def annuityDen (r : ℝ) (term : ℤ) : ℝ :=
  ∑ k in Finset.range term.toNat, r ^ k

/-- Mortgage.calc_repayment: self.loan * self.rate ** self.term divided by
the annuity sum, computed from the current fields. -/
noncomputable def calcRepayment (s : Mortgage) : ℝ :=
  s.loan * s.rate ^ s.term / annuityDen s.rate s.term

/-- Mortgage.__init__: converts the annual percentage rate to a monthly
factor via a real 1/12 power, the term in years to months, adds the fee
to the loan or subtracts it from the cash balance, then runs
calc_repayment on the resulting state. -/
noncomputable def mkMortgage (housevalue loan rate : ℝ) (term : ℤ)
    (fee : ℝ) (cashback : ℝ) (borrowfee : Bool) : Mortgage :=
  let base : Mortgage :=
    { housevalue := housevalue
      initloan := loan
      loan := if borrowfee then loan + fee else loan
      rate := (rate / 100 + 1) ^ ((1 : ℝ) / 12)
      term := term * 12
      cashbalance := if borrowfee then cashback else cashback - fee
      repayment := 0 }
  { base with repayment := calcRepayment base }

/-- The loop body of Mortgage.remaining_loan: iterate
loan = loan * rate - repayment on a local variable. -/
def remainingLoanAux (rate repayment : ℝ) : ℝ → ℕ → ℝ
  | L, 0 => L
  | L, n + 1 => remainingLoanAux rate repayment (L * rate - repayment) n

/-- Mortgage.remaining_loan(npayments): starts from the stored loan and
applies interest-then-payment npayments times (xrange of a non-positive
count is empty). -/
def remainingLoan (s : Mortgage) (npayments : ℤ) : ℝ :=
  remainingLoanAux s.rate s.repayment s.loan npayments.toNat

/-- Mortgage.loan_to_value. -/
noncomputable def loanToValue (s : Mortgage) : ℝ :=
  s.loan / s.housevalue

lemma remainingLoanAux_closed (r P L : ℝ) (n : ℕ) :
    remainingLoanAux r P L n =
      L * r ^ n - P * ∑ k in Finset.range n, r ^ k := by
  induction n generalizing L with
  | zero => simp [remainingLoanAux]
  | succ n ih =>
    rw [remainingLoanAux, ih, Finset.sum_range_succ]
    ring

lemma remainingLoan_zero (s : Mortgage) : remainingLoan s 0 = s.loan := rfl

lemma remainingLoan_closed (s : Mortgage) (n : ℤ) :
    remainingLoan s n =
      s.loan * s.rate ^ n.toNat -
        s.repayment * ∑ k in Finset.range n.toNat, s.rate ^ k :=
  remainingLoanAux_closed _ _ _ _

/-- The probe object built inside Mortgage.effective_rate_after:
Mortgage(self.housevalue, self.initloan, effectiverate, self.term, 0.)
with its repayment then overwritten by self.repayment. Note that
self.term (months) is passed where the constructor expects years. -/
noncomputable def probeMortgage (m : Mortgage) (R : ℝ) : Mortgage :=
  { mkMortgage m.housevalue m.initloan R m.term 0 0 true with
      repayment := m.repayment }

/-- The quantity effloan = meff.remaining_loan(npayments) probed by the
scan in effective_rate_after, as a function of the trial rate. -/
noncomputable def effLoan (m : Mortgage) (npayments : ℤ) (R : ℝ) : ℝ :=
  remainingLoan (probeMortgage m R) npayments

/-- The while-True scan of effective_rate_after, with an explicit fuel
parameter to give the possibly endless loop a total semantics: none
means the loop has not exited within the given number of iterations.
If the probe balance is below the target the rate is raised by the step,
otherwise the rate is lowered, the step shrinks tenfold, and the loop
exits when the step reaches 1e-5. -/
noncomputable def rateScan (f : ℝ → ℝ) (target : ℝ) :
    ℕ → ℝ → ℝ → Option ℝ
  | 0, _, _ => none
  | fuel + 1, R, δ =>
    if f R < target then rateScan f target fuel (R + δ) δ
    else if δ / 10 = 1e-5 then some (R - δ)
    else rateScan f target fuel (R - δ) (δ / 10)

/-- Mortgage.effective_rate_after(npayments): scan starting from rate
0.1 and step 0.1, probing against the target
self.remaining_loan(npayments) - self.cashbalance. -/
noncomputable def effectiveRateAfter (m : Mortgage) (npayments : ℤ)
    (fuel : ℕ) : Option ℝ :=
  rateScan (effLoan m npayments) (remainingLoan m npayments - m.cashbalance)
    fuel 0.1 0.1

lemma rateScan_succ (f : ℝ → ℝ) (target : ℝ) (fuel : ℕ) (R δ : ℝ) :
    rateScan f target (fuel + 1) R δ =
      if f R < target then rateScan f target fuel (R + δ) δ
      else if δ / 10 = 1e-5 then some (R - δ)
      else rateScan f target fuel (R - δ) (δ / 10) := rfl

lemma probeMortgage_loan (m : Mortgage) (R : ℝ) :
    (probeMortgage m R).loan = m.initloan := by
  simp [probeMortgage, mkMortgage]

lemma probeMortgage_repayment (m : Mortgage) (R : ℝ) :
    (probeMortgage m R).repayment = m.repayment := rfl

lemma probeMortgage_rate (m : Mortgage) (R : ℝ) :
    (probeMortgage m R).rate = (R / 100 + 1) ^ ((1 : ℝ) / 12) := rfl

lemma effLoan_eq (m : Mortgage) (n : ℤ) (R : ℝ) :
    effLoan m n R =
      remainingLoanAux ((R / 100 + 1) ^ ((1 : ℝ) / 12)) m.repayment
        m.initloan n.toNat := by
  rw [effLoan, remainingLoan, probeMortgage_rate, probeMortgage_repayment,
    probeMortgage_loan]

lemma effLoan_zero (m : Mortgage) (R : ℝ) : effLoan m 0 R = m.initloan := by
  rw [effLoan_eq]
  rfl

/-- One period specification passed to MortgageSequence.__init__: a dict
with rate, fee and term entries plus optional cashback and borrowfee. -/
structure PeriodSpec where
  rate : ℝ
  fee : ℝ
  term : ℤ
  cashback : ℝ
  borrowfee : Bool

/-- The construction loop of MortgageSequence.__init__: for each period
spec, build a Mortgage from the current remaining loan and remaining
term (months, floor-divided by 12 back to years as in Python 2 integer
division), record (spec term in months, mortgage), then thread the
remaining loan and term forward. -/
noncomputable def buildMortgages (housevalue : ℝ) :
    ℝ → ℤ → List PeriodSpec → List (ℤ × Mortgage)
  | _, _, [] => []
  | remainingloan, remainingterm, spec :: rest =>
    let m := mkMortgage housevalue remainingloan spec.rate
      (Int.fdiv remainingterm 12) spec.fee spec.cashback spec.borrowfee
    (spec.term * 12, m) ::
      buildMortgages housevalue (remainingLoan m (spec.term * 12))
        (remainingterm - spec.term * 12) rest

/-- The overwrite self.mortgages[-1][0] = self.term - sum(...): replace
the recorded length of the last period with the total term minus the sum
of the lengths of the preceding periods. -/
def overwriteLast (rem : ℤ) : List (ℤ × Mortgage) → List (ℤ × Mortgage)
  | [] => []
  | [(_, m)] => [(rem, m)]
  | (t, m) :: rest@(_ :: _) => (t, m) :: overwriteLast (rem - t) rest

/-- The recorded (length, model) list of a constructed MortgageSequence:
the construction loop followed by the last-length overwrite. -/
noncomputable def seqMortgages (housevalue loan : ℝ) (termYears : ℤ)
    (specs : List PeriodSpec) : List (ℤ × Mortgage) :=
  overwriteLast (termYears * 12)
    (buildMortgages housevalue loan (termYears * 12) specs)

/-- MortgageSequence.remaining_loan(npayments): walk the recorded
periods; the first period whose length covers the remaining payments
answers with its own remaining_loan; Python returns None (here: none)
when the loop exhausts the list without returning. -/
noncomputable def seqRemainingLoan :
    List (ℤ × Mortgage) → ℤ → Option ℝ
  | [], _ => none
  | (t, m) :: rest, n =>
    if n - t ≤ 0 then some (remainingLoan m n)
    else seqRemainingLoan rest (n - t)

/-- The condition under which Mortgage.__init__ raises in Python: either
the fractional power (rate/100. + 1.)**(1./12) has a negative base
(ValueError: negative number cannot be raised to a fractional power), or
calc_repayment divides by a zero annuity sum (ZeroDivisionError). No
other operation in the constructor can fail; in particular house value,
loan, fee and cashback are never inspected. -/
def mortgageInitRaises (housevalue loan rate : ℝ) (term : ℤ)
    (fee cashback : ℝ) (borrowfee : Bool) : Prop :=
  rate / 100 + 1 < 0 ∨
    annuityDen ((rate / 100 + 1) ^ ((1 : ℝ) / 12)) (term * 12) = 0

/-- C7 counterexample: with a borrowed fee (the default), remaining_loan(0)
returns the stored loan including the fee, not the loan amount passed to
the constructor: for house 150000, loan 125000, rate 5, term 1, fee 995
it returns 125995, not 125000. -/
theorem c7_counterexample :
    remainingLoan (mkMortgage 150000 125000 5 1 995 0 true) 0 = 125995 ∧
      (125995 : ℝ) ≠ 125000 := by
  constructor
  · rw [remainingLoan_zero]
    norm_num [mkMortgage]
  · norm_num

/-- C7 amended: remaining_loan(0) returns the stored loan field exactly:
the constructor loan plus the fee when the fee is borrowed, and the
unmodified constructor loan otherwise. -/
theorem c7_remaining_loan_zero (housevalue loan rate : ℝ) (term : ℤ)
    (fee cashback : ℝ) :
    remainingLoan (mkMortgage housevalue loan rate term fee cashback true) 0
        = loan + fee ∧
      remainingLoan (mkMortgage housevalue loan rate term fee cashback false) 0
        = loan := by
  constructor <;> · rw [remainingLoan_zero]; norm_num [mkMortgage]

/-- C2: for a mortgage with positive loan, positive term, monthly rate
factor above 1 and the closed-form repayment, the remaining loan after
exactly term_months payments is exactly zero. -/
theorem c2_remaining_at_term (s : Mortgage) (hr : 1 < s.rate)
    (hT : 0 < s.term) (hL : 0 < s.loan)
    (hrep : s.repayment = calcRepayment s) :
    remainingLoan s s.term = 0 := by
  have hν : s.term.toNat ≠ 0 := by omega
  have hrpos : (0 : ℝ) < s.rate := lt_trans one_pos hr
  have hden : (0 : ℝ) < annuityDen s.rate s.term :=
    Finset.sum_pos (fun k _ => pow_pos hrpos k)
      (Finset.nonempty_range_iff.mpr hν)
  have hzpow : s.rate ^ s.term = s.rate ^ s.term.toNat := by
    rw [← Int.toNat_of_nonneg (le_of_lt hT), zpow_natCast,
      Int.toNat_of_nonneg (le_of_lt hT)]
  rw [remainingLoan_closed, hrep, calcRepayment, hzpow,
    show (∑ k in Finset.range s.term.toNat, s.rate ^ k)
        = annuityDen s.rate s.term from rfl,
    div_mul_cancel₀ _ (ne_of_gt hden)]
  ring

/-- C2 witness at rate factor 2, term 2, loan 3, repayment 4. -/
theorem c2_witness :
    remainingLoan
      { housevalue := 1, initloan := 3, loan := 3, rate := 2, term := 2,
        cashbalance := 0, repayment := 4 } 2 = 0 := by
  have h := c2_remaining_at_term
    { housevalue := 1, initloan := 3, loan := 3, rate := 2, term := 2,
      cashbalance := 0, repayment := 4 }
    (by norm_num) (by norm_num) (by norm_num)
    (by
      show (4 : ℝ) = _
      rw [calcRepayment, annuityDen]
      norm_num [Finset.sum_range_succ, show Int.toNat 2 = 2 from rfl])
  exact h

/-- C6: with the closed-form positive repayment and a monthly rate
factor above 1, the remaining loan is non-increasing from one payment to
the next within the term. -/
theorem c6_remaining_monotone (s : Mortgage) (hr : 1 < s.rate)
    (hrep : s.repayment = calcRepayment s) (hP : 0 < s.repayment)
    (n : ℤ) (hn : 0 ≤ n) (hnT : n < s.term) :
    remainingLoan s (n + 1) ≤ remainingLoan s n := by
  set r := s.rate with hrdef
  set P := s.repayment with hPdef
  set L := s.loan with hLdef
  have hrpos : (0 : ℝ) < r := lt_trans one_pos hr
  have hr1 : (0 : ℝ) < r - 1 := by linarith
  have hT0 : s.term.toNat ≠ 0 := by omega
  set T := s.term.toNat with hTdef
  set ν := n.toNat with hνdef
  have hn1 : (n + 1).toNat = ν + 1 := by omega
  -- the annuity denominator and its geometric identities
  set D := annuityDen r s.term with hDdef
  have hden : (0 : ℝ) < D :=
    Finset.sum_pos (fun k _ => pow_pos hrpos k)
      (Finset.nonempty_range_iff.mpr hT0)
  have hgeomT : D * (r - 1) = r ^ T - 1 := by
    rw [hDdef, annuityDen, geom_sum_mul]
  have hzpow : r ^ s.term = r ^ T := by
    rw [hTdef, ← Int.toNat_of_nonneg (by omega : (0:ℤ) ≤ s.term),
      zpow_natCast, Int.toNat_of_nonneg (by omega : (0:ℤ) ≤ s.term)]
  have hPden : P * D = L * r ^ T := by
    rw [hrep, calcRepayment, ← hrdef, ← hLdef, ← hDdef, hzpow,
      div_mul_cancel₀ _ (ne_of_gt hden)]
  -- the loan is positive
  have hL0 : (0 : ℝ) < L := by
    rcases lt_trichotomy L 0 with h | h | h
    · exfalso
      have : P * D < 0 := by
        rw [hPden]
        exact mul_neg_of_neg_of_pos h (pow_pos hrpos T)
      nlinarith [mul_pos hP hden]
    · exfalso
      have : P * D = 0 := by rw [hPden, h]; ring
      nlinarith [mul_pos hP hden]
    · exact h
  -- key inequality: L * (r - 1) <= P
  have key : L * (r - 1) ≤ P := by
    have h1 : L * (r - 1) * D = P * D - L := by
      calc L * (r - 1) * D = L * (D * (r - 1)) := by ring
        _ = L * (r ^ T - 1) := by rw [hgeomT]
        _ = L * r ^ T - L := by ring
        _ = P * D - L := by rw [hPden]
    have h2 : L * (r - 1) * D ≤ P * D := by linarith
    exact le_of_mul_le_mul_right h2 hden
  -- geometric identity after n payments
  have hgeomν : (∑ k in Finset.range ν, r ^ k) * (r - 1) = r ^ ν - 1 :=
    geom_sum_mul r ν
  -- one step of the recurrence
  have hstep : remainingLoan s (n + 1) = r * remainingLoan s n - P := by
    rw [remainingLoan_closed, remainingLoan_closed, ← hrdef, ← hPdef,
      ← hLdef, ← hνdef, hn1, geom_sum_succ, pow_succ]
    ring
  rw [hstep]
  have hXP : (r - 1) * remainingLoan s n ≤ P := by
    rw [remainingLoan_closed, ← hrdef, ← hPdef, ← hLdef, ← hνdef]
    have hkr : L * (r - 1) * r ^ ν ≤ P * r ^ ν :=
      mul_le_mul_of_nonneg_right key (pow_nonneg (le_of_lt hrpos) ν)
    nlinarith [hgeomν]
  linarith

/-- C6 witness at rate factor 2, term 2, loan 6, repayment 8: the
balance drops from 6 to 4 after the first payment. -/
theorem c6_witness :
    remainingLoan
      { housevalue := 1, initloan := 6, loan := 6, rate := 2, term := 2,
        cashbalance := 0, repayment := 8 } (0 + 1) ≤
      remainingLoan
        { housevalue := 1, initloan := 6, loan := 6, rate := 2, term := 2,
          cashbalance := 0, repayment := 8 } 0 :=
  c6_remaining_monotone
    { housevalue := 1, initloan := 6, loan := 6, rate := 2, term := 2,
      cashbalance := 0, repayment := 8 }
    (by norm_num)
    (by
      show (8 : ℝ) = _
      rw [calcRepayment, annuityDen]
      norm_num [Finset.sum_range_succ, show Int.toNat 2 = 2 from rfl])
    (by norm_num) 0 (by norm_num) (by norm_num)

/-- C9: the queries are pure functions of the fields they read:
remaining_loan depends only on the stored loan, rate and repayment, and
loan_to_value only on the stored loan and house value; no field of the
queried object is written (queries return plain values in this model,
mirroring the local-variable loop of the source). -/
theorem c9_queries_pure :
    (∀ (s₁ s₂ : Mortgage) (n : ℤ), s₁.loan = s₂.loan → s₁.rate = s₂.rate →
      s₁.repayment = s₂.repayment → remainingLoan s₁ n = remainingLoan s₂ n)
    ∧ (∀ s₁ s₂ : Mortgage, s₁.loan = s₂.loan →
        s₁.housevalue = s₂.housevalue → loanToValue s₁ = loanToValue s₂) := by
  constructor
  · intro s₁ s₂ n hL hr hP
    rw [remainingLoan, remainingLoan, hL, hr, hP]
  · intro s₁ s₂ hL hh
    rw [loanToValue, loanToValue, hL, hh]

/-- C9 witness: two states differing only in fields outside
(loan, rate, repayment) give the same remaining_loan. -/
theorem c9_witness :
    remainingLoan
      { housevalue := 1, initloan := 2, loan := 3, rate := 4, term := 5,
        cashbalance := 6, repayment := 7 } 5 =
      remainingLoan
        { housevalue := 10, initloan := 20, loan := 3, rate := 4, term := 50,
          cashbalance := 60, repayment := 7 } 5 :=
  c9_queries_pure.1
    { housevalue := 1, initloan := 2, loan := 3, rate := 4, term := 5,
      cashbalance := 6, repayment := 7 }
    { housevalue := 10, initloan := 20, loan := 3, rate := 4, term := 50,
      cashbalance := 60, repayment := 7 } 5 rfl rfl rfl

/-- C10: the result of effective_rate_after is independent of the
housevalue and term fields: two states agreeing on initloan, loan, rate,
repayment and cashbalance give identical scan results for every payment
count and every fuel, even though the probe receives the term in months
where years are expected (its term field is unread by remaining_loan and
its repayment is overwritten). -/
theorem c10_rate_independent_of_housevalue_term (m₁ m₂ : Mortgage)
    (h₁ : m₁.initloan = m₂.initloan) (h₂ : m₁.loan = m₂.loan)
    (h₃ : m₁.rate = m₂.rate) (h₄ : m₁.repayment = m₂.repayment)
    (h₅ : m₁.cashbalance = m₂.cashbalance) (n : ℤ) (fuel : ℕ) :
    effectiveRateAfter m₁ n fuel = effectiveRateAfter m₂ n fuel := by
  have hf : effLoan m₁ n = effLoan m₂ n := by
    funext R
    rw [effLoan_eq, effLoan_eq, h₁, h₄]
  have ht : remainingLoan m₁ n - m₁.cashbalance
      = remainingLoan m₂ n - m₂.cashbalance := by
    rw [remainingLoan, remainingLoan, h₂, h₃, h₄, h₅]
  rw [effectiveRateAfter, effectiveRateAfter, hf, ht]

/-- C10 witness: two states differing in housevalue and term, agreeing
elsewhere, give the same scan result. -/
theorem c10_witness :
    effectiveRateAfter
      { housevalue := 1, initloan := 2, loan := 3, rate := 4, term := 5,
        cashbalance := 6, repayment := 7 } 2 3 =
      effectiveRateAfter
        { housevalue := 100, initloan := 2, loan := 3, rate := 4, term := 50,
          cashbalance := 6, repayment := 7 } 2 3 :=
  c10_rate_independent_of_housevalue_term
    { housevalue := 1, initloan := 2, loan := 3, rate := 4, term := 5,
      cashbalance := 6, repayment := 7 }
    { housevalue := 100, initloan := 2, loan := 3, rate := 4, term := 50,
      cashbalance := 6, repayment := 7 } rfl rfl rfl rfl rfl 2 3

/-- C8 counterexample: a non-positive house value is accepted:
Mortgage(-1, 100000, 0, 1, 0) constructs without any error. -/
theorem c8_counterexample :
    ¬ mortgageInitRaises (-1) 100000 0 1 0 0 true := by
  rw [mortgageInitRaises]
  push_neg
  constructor
  · norm_num
  · rw [annuityDen]
    norm_num [Real.one_rpow, show Int.toNat (1 * 12) = 12 from rfl]

/-- C8 amended: construction fails with an error exactly where the
arithmetic fails, not by validation: any non-positive term raises
(division by the empty annuity sum), while for a positive term and a
rate of at least -100 percent nothing raises, whatever the house value
and loan, including non-positive ones. Fewer than 2 period specs for a
sequence is a missing-argument TypeError by the call signature. -/
theorem c8_construction_validation (housevalue loan rate : ℝ) (term : ℤ)
    (fee cashback : ℝ) (borrowfee : Bool) :
    (term ≤ 0 →
      mortgageInitRaises housevalue loan rate term fee cashback borrowfee)
    ∧ (0 < term → -100 ≤ rate →
        ¬ mortgageInitRaises housevalue loan rate term fee cashback
          borrowfee) := by
  constructor
  · intro hT
    right
    rw [annuityDen, Int.toNat_of_nonpos (by omega : term * 12 ≤ 0)]
    simp
  · intro hT hrate
    rw [mortgageInitRaises]
    push_neg
    have hbase : (0 : ℝ) ≤ rate / 100 + 1 := by linarith
    refine ⟨hbase, ?_⟩
    have hρ : (0 : ℝ) ≤ (rate / 100 + 1) ^ ((1 : ℝ) / 12) :=
      Real.rpow_nonneg hbase _
    have h0 : (0 : ℕ) ∈ Finset.range (term * 12).toNat := by
      rw [Finset.mem_range]
      omega
    have h1 : (1 : ℝ) ≤ annuityDen ((rate / 100 + 1) ^ ((1 : ℝ) / 12))
        (term * 12) := by
      rw [annuityDen]
      calc (1 : ℝ) = (
        (rate / 100 + 1) ^ ((1 : ℝ) / 12)) ^ (0 : ℕ) := by rw [pow_zero]
        _ ≤ _ := Finset.single_le_sum (fun k _ => pow_nonneg hρ k) h0
    intro h
    rw [h] at h1
    linarith

/-- C8 witness: term 0 raises; house value -1 with loan -5 does not. -/
theorem c8_witness :
    mortgageInitRaises 5 100 3 0 2 0 true ∧
      ¬ mortgageInitRaises (-1) (-5) 0 1 0 0 false :=
  ⟨(c8_construction_validation 5 100 3 0 2 0 true).1 (le_refl 0),
    (c8_construction_validation (-1) (-5) 0 1 0 0 false).2 (by norm_num)
      (by norm_num)⟩

lemma rateScan_dec_step (f : ℝ → ℝ) (t : ℝ) (k : ℕ) (R δ : ℝ)
    (hR : ¬ f R < t) (hδ : δ / 10 ≠ 1e-5) :
    rateScan f t (k + 1) R δ = rateScan f t k (R - δ) (δ / 10) := by
  rw [rateScan_succ, if_neg hR, if_neg hδ]

lemma rateScan_ret_step (f : ℝ → ℝ) (t : ℝ) (k : ℕ) (R δ : ℝ)
    (hR : ¬ f R < t) (hδ : δ / 10 = 1e-5) :
    rateScan f t (k + 1) R δ = some (R - δ) := by
  rw [rateScan_succ, if_neg hR, if_pos hδ]

lemma rateScan_all_dec (f : ℝ → ℝ) (t : ℝ) (hf : ∀ R, ¬ f R < t) (k : ℕ) :
    rateScan f t (k + 4) 0.1 0.1 = some (-0.0111) := by
  calc rateScan f t (k + 4) 0.1 0.1
      = rateScan f t (k + 3) (0.1 - 0.1) (0.1 / 10) :=
        rateScan_dec_step f t (k + 3) _ _ (hf _) (by norm_num)
    _ = rateScan f t (k + 2) (0.1 - 0.1 - 0.1 / 10) (0.1 / 10 / 10) :=
        rateScan_dec_step f t (k + 2) _ _ (hf _) (by norm_num)
    _ = rateScan f t (k + 1) (0.1 - 0.1 - 0.1 / 10 - 0.1 / 10 / 10)
          (0.1 / 10 / 10 / 10) :=
        rateScan_dec_step f t (k + 1) _ _ (hf _) (by norm_num)
    _ = some (0.1 - 0.1 - 0.1 / 10 - 0.1 / 10 / 10 - 0.1 / 10 / 10 / 10) :=
        rateScan_ret_step f t k _ _ (hf _) (by norm_num)
    _ = some (-0.0111) := by norm_num

lemma rateScan_none_of_always_lt (f : ℝ → ℝ) (t : ℝ)
    (hf : ∀ R, f R < t) :
    ∀ (fuel : ℕ) (R δ : ℝ), rateScan f t fuel R δ = none := by
  intro fuel
  induction fuel with
  | zero => intro R δ; rfl
  | succ fuel ih =>
    intro R δ
    rw [rateScan_succ, if_pos (hf R)]
    exact ih _ _

lemma rateScan_sound (f : ℝ → ℝ) (t : ℝ) :
    ∀ (fuel : ℕ) (R δ x : ℝ),
      rateScan f t fuel R δ = some x → t ≤ f (x + 1e-4) := by
  intro fuel
  induction fuel with
  | zero => intro R δ x h; exact absurd h (by rw [rateScan]; simp)
  | succ fuel ih =>
    intro R δ x h
    rw [rateScan_succ] at h
    by_cases h1 : f R < t
    · rw [if_pos h1] at h
      exact ih _ _ _ h
    · rw [if_neg h1] at h
      by_cases h2 : δ / 10 = 1e-5
      · rw [if_pos h2] at h
        have hx : x = R - δ := (Option.some_inj.mp h).symm
        have hδ : δ = 1e-4 := by linarith
        rw [hx, hδ, show R - 1e-4 + 1e-4 = R from by ring]
        exact not_lt.mp h1
      · rw [if_neg h2] at h
        exact ih _ _ _ h

lemma rateScan_term_level (f : ℝ → ℝ) (t : ℝ) (δ : ℝ)
    (hnext : ∀ R, ¬ f R < t →
      δ / 10 = 1e-5 ∨ ∃ fuel x, rateScan f t fuel (R - δ) (δ / 10) = some x) :
    ∀ (k : ℕ) (R : ℝ), ¬ f (R + k * δ) < t →
      ∃ fuel x, rateScan f t fuel R δ = some x := by
  intro k
  induction k with
  | zero =>
    intro R hR
    rw [Nat.cast_zero, zero_mul, add_zero] at hR
    rcases hnext R hR with h5 | ⟨fuel, x, hx⟩
    · exact ⟨1, R - δ, by rw [rateScan_succ, if_neg hR, if_pos h5]⟩
    · by_cases h5 : δ / 10 = 1e-5
      · exact ⟨1, R - δ, by rw [rateScan_succ, if_neg hR, if_pos h5]⟩
      · exact ⟨fuel + 1, x, by
          rw [rateScan_succ, if_neg hR, if_neg h5]; exact hx⟩
  | succ k ih =>
    intro R hR
    by_cases h1 : f R < t
    · have hshift : ¬ f (R + δ + k * δ) < t := by
        rw [show R + δ + (k : ℝ) * δ = R + ((k : ℕ) + 1 : ℕ) * δ from by
          push_cast; ring]
        exact hR
      obtain ⟨fuel, x, hx⟩ := ih (R + δ) hshift
      exact ⟨fuel + 1, x, by rw [rateScan_succ, if_pos h1]; exact hx⟩
    · rcases hnext R h1 with h5 | ⟨fuel, x, hx⟩
      · exact ⟨1, R - δ, by rw [rateScan_succ, if_neg h1, if_pos h5]⟩
      · by_cases h5 : δ / 10 = 1e-5
        · exact ⟨1, R - δ, by rw [rateScan_succ, if_neg h1, if_pos h5]⟩
        · exact ⟨fuel + 1, x, by
            rw [rateScan_succ, if_neg h1, if_neg h5]; exact hx⟩

lemma exists_scan_hit (f : ℝ → ℝ) (t : ℝ)
    (hf : ∃ R₀, ∀ R, R₀ ≤ R → t ≤ f R) (δ : ℝ) (hδ : 0 < δ) (R : ℝ) :
    ∃ k : ℕ, ¬ f (R + k * δ) < t := by
  obtain ⟨R₀, h⟩ := hf
  refine ⟨⌈(R₀ - R) / δ⌉₊, not_lt.mpr (h _ ?_)⟩
  have h1 : (R₀ - R) / δ ≤ (⌈(R₀ - R) / δ⌉₊ : ℝ) := Nat.le_ceil _
  have h2 : R₀ - R ≤ (⌈(R₀ - R) / δ⌉₊ : ℝ) * δ := (div_le_iff₀ hδ).mp h1
  linarith

lemma rateScan_terminates (f : ℝ → ℝ) (t : ℝ)
    (hf : ∃ R₀, ∀ R, R₀ ≤ R → t ≤ f R) :
    ∀ R, ∃ fuel x, rateScan f t fuel R 0.1 = some x := by
  have T4 : ∀ R, ∃ fuel x, rateScan f t fuel R 1e-4 = some x := by
    intro R
    obtain ⟨k, hk⟩ := exists_scan_hit f t hf 1e-4 (by norm_num) R
    exact rateScan_term_level f t 1e-4
      (fun R₁ _ => Or.inl (by norm_num)) k R hk
  have T3 : ∀ R, ∃ fuel x, rateScan f t fuel R 1e-3 = some x := by
    intro R
    obtain ⟨k, hk⟩ := exists_scan_hit f t hf 1e-3 (by norm_num) R
    refine rateScan_term_level f t 1e-3 (fun R₁ _ => Or.inr ?_) k R hk
    rw [show (1e-3 : ℝ) / 10 = 1e-4 from by norm_num]
    exact T4 _
  have T2 : ∀ R, ∃ fuel x, rateScan f t fuel R 1e-2 = some x := by
    intro R
    obtain ⟨k, hk⟩ := exists_scan_hit f t hf 1e-2 (by norm_num) R
    refine rateScan_term_level f t 1e-2 (fun R₁ _ => Or.inr ?_) k R hk
    rw [show (1e-2 : ℝ) / 10 = 1e-3 from by norm_num]
    exact T3 _
  intro R
  obtain ⟨k, hk⟩ := exists_scan_hit f t hf 0.1 (by norm_num) R
  refine rateScan_term_level f t 0.1 (fun R₁ _ => Or.inr ?_) k R hk
  rw [show (0.1 : ℝ) / 10 = 1e-2 from by norm_num]
  exact T2 _

lemma geom_unbounded (L P : ℝ) (hL : 0 < L) (ν : ℕ) (hν : 1 ≤ ν) (C : ℝ) :
    ∃ ρ₀ : ℝ, 1 ≤ ρ₀ ∧ ∀ ρ : ℝ, ρ₀ ≤ ρ →
      C ≤ L * ρ ^ ν - P * ∑ k in Finset.range ν, ρ ^ k := by
  refine ⟨max 1 ((max C 0 + |P| * ν) / L), le_max_left _ _, fun ρ hρ => ?_⟩
  have hρ1 : (1 : ℝ) ≤ ρ := le_trans (le_max_left _ _) hρ
  have hρ0 : (0 : ℝ) ≤ ρ := by linarith
  have hkey : max C 0 + |P| * ν ≤ L * ρ := by
    have h1 : (max C 0 + |P| * ν) / L ≤ ρ := le_trans (le_max_right _ _) hρ
    have h2 := (div_le_iff₀ hL).mp h1
    linarith
  have hsum : ∑ k in Finset.range ν, ρ ^ k ≤ (ν : ℝ) * ρ ^ (ν - 1) := by
    calc ∑ k in Finset.range ν, ρ ^ k
        ≤ ∑ _k in Finset.range ν, ρ ^ (ν - 1) :=
          Finset.sum_le_sum (fun k hk =>
            pow_le_pow_right₀ hρ1 (by
              have := Finset.mem_range.mp hk
              omega))
      _ = (ν : ℝ) * ρ ^ (ν - 1) := by
          rw [Finset.sum_const, Finset.card_range, nsmul_eq_mul]
  have hsum0 : (0 : ℝ) ≤ ∑ k in Finset.range ν, ρ ^ k :=
    Finset.sum_nonneg fun k _ => pow_nonneg hρ0 k
  have hPsum : P * ∑ k in Finset.range ν, ρ ^ k
      ≤ |P| * ((ν : ℝ) * ρ ^ (ν - 1)) := by
    calc P * ∑ k in Finset.range ν, ρ ^ k
        ≤ |P| * ∑ k in Finset.range ν, ρ ^ k :=
          mul_le_mul_of_nonneg_right (le_abs_self P) hsum0
      _ ≤ |P| * ((ν : ℝ) * ρ ^ (ν - 1)) :=
          mul_le_mul_of_nonneg_left hsum (abs_nonneg P)
  have hpow : ρ ^ ν = ρ ^ (ν - 1) * ρ := by
    conv_lhs => rw [show ν = (ν - 1) + 1 from by omega]
    rw [pow_succ]
  have hfac : L * ρ ^ ν - |P| * ((ν : ℝ) * ρ ^ (ν - 1))
      = ρ ^ (ν - 1) * (L * ρ - |P| * ν) := by
    rw [hpow]; ring
  have hnn : 0 ≤ L * ρ - |P| * ν := by
    have := le_max_right C 0
    linarith
  have hp1 : (1 : ℝ) ≤ ρ ^ (ν - 1) := by
    calc (1 : ℝ) = 1 ^ (ν - 1) := (one_pow _).symm
      _ ≤ ρ ^ (ν - 1) := pow_le_pow_left₀ (by norm_num) hρ1 _
  have h3 : max C 0 ≤ ρ ^ (ν - 1) * (L * ρ - |P| * ν) := by
    have h4 := mul_le_mul_of_nonneg_right hp1 hnn
    have := le_max_right C 0
    nlinarith [hkey]
  calc C ≤ max C 0 := le_max_left _ _
    _ ≤ ρ ^ (ν - 1) * (L * ρ - |P| * ν) := h3
    _ = L * ρ ^ ν - |P| * ((ν : ℝ) * ρ ^ (ν - 1)) := hfac.symm
    _ ≤ L * ρ ^ ν - P * ∑ k in Finset.range ν, ρ ^ k := by linarith

lemma effLoan_unbounded (m : Mortgage) (n : ℤ) (hn : 1 ≤ n)
    (hI : 0 < m.initloan) (t : ℝ) :
    ∃ R₀, ∀ R, R₀ ≤ R → t ≤ effLoan m n R := by
  have hν : 1 ≤ n.toNat := by omega
  obtain ⟨ρ₀, hρ₀1, h⟩ := geom_unbounded m.initloan m.repayment hI n.toNat hν t
  refine ⟨100 * (ρ₀ ^ (12 : ℕ) - 1), fun R hR => ?_⟩
  rw [effLoan_eq, remainingLoanAux_closed]
  apply h
  have hρ₀0 : (0 : ℝ) ≤ ρ₀ := by linarith
  have hbase : ρ₀ ^ (12 : ℕ) ≤ R / 100 + 1 := by linarith
  calc ρ₀ = (ρ₀ ^ (12 : ℕ)) ^ ((1 : ℝ) / 12) := by
        rw [← Real.rpow_natCast ρ₀ 12, ← Real.rpow_mul hρ₀0]
        norm_num
    _ ≤ (R / 100 + 1) ^ ((1 : ℝ) / 12) :=
        Real.rpow_le_rpow (pow_nonneg hρ₀0 _) hbase (by norm_num)

/-- C3 counterexample: for a mortgage with a borrowed fee, the scan of
effective_rate_after(0) never exits: the probe balance is the constant
initloan while the target is initloan + fee, so the rate is raised by
0.1 forever and the step never shrinks. No amount of fuel returns. -/
theorem c3_counterexample :
    ¬ ∃ (fuel : ℕ) (R : ℝ),
      effectiveRateAfter (mkMortgage 100000 100000 5 1 995 0 true) 0 fuel
        = some R := by
  rintro ⟨fuel, R, h⟩
  rw [effectiveRateAfter, rateScan_none_of_always_lt] at h
  · exact Option.noConfusion h
  · intro R₁
    rw [effLoan_zero, remainingLoan_zero]
    norm_num [mkMortgage]

/-- C3 amended: for at least one payment and a positive initial loan the
scan always exits at step 1e-5: the probe balance grows without bound in
the trial rate, so every raising phase ends, and only four step
shrinkings can happen before the exit test fires (exactly at 1e-5 in
this exact-arithmetic model; the IEEE-double division chain
0.1/10/10/10/10 also lands exactly on the 1e-5 literal). At n = 0 with
a borrowed fee the scan loops forever. -/
theorem c3_scan_terminates (m : Mortgage) (n : ℤ) (hn : 1 ≤ n)
    (hI : 0 < m.initloan) :
    ∃ fuel x, effectiveRateAfter m n fuel = some x := by
  have h := rateScan_terminates (effLoan m n)
    (remainingLoan m n - m.cashbalance)
    (effLoan_unbounded m n hn hI _) 0.1
  exact h

/-- C3 witness: the scan terminates on the 25-year example mortgage when
queried after one payment. -/
theorem c3_witness :
    ∃ fuel x,
      effectiveRateAfter (mkMortgage 150000 125000 (1.69) 25 995 0 true) 1
        fuel = some x :=
  c3_scan_terminates (mkMortgage 150000 125000 (1.69) 25 995 0 true) 1
    (le_refl 1) (by norm_num [mkMortgage])

/-- C1 counterexample: for a mortgage with cashback 10 and no fee, at
n = 0 the scan returns -0.0111, but the probe balance is the constant
initloan while the target is initloan - 10, so no trial rate at all
(within 1e-5 of the returned rate or otherwise) makes the rebuilt model
match the adjusted target. -/
theorem c1_counterexample :
    effectiveRateAfter (mkMortgage 1000 1000 5 1 0 10 true) 0 4
        = some (-0.0111) ∧
      ¬ ∃ R₁ : ℝ, |R₁ - (-0.0111)| ≤ 1e-5 ∧
        effLoan (mkMortgage 1000 1000 5 1 0 10 true) 0 R₁ =
          remainingLoan (mkMortgage 1000 1000 5 1 0 10 true) 0 -
            (mkMortgage 1000 1000 5 1 0 10 true).cashbalance := by
  constructor
  · rw [effectiveRateAfter, remainingLoan_zero]
    exact rateScan_all_dec _ _
      (fun R => by rw [effLoan_zero]; norm_num [mkMortgage]) 0
  · rintro ⟨R₁, _, h⟩
    rw [effLoan_zero, remainingLoan_zero] at h
    norm_num [mkMortgage] at h

/-- C1 amended: whatever the returned rate R is, the scan only
guarantees a one-sided bracket at the final step width: a probe rebuilt
at rate R + 1e-4 has remaining balance at least the adjusted target
remaining_loan(n) - cash_balance. Equality within 1e-5 on the rate need
not hold: the last move is a subtraction of 1e-4, and in degenerate
cases (n = 0 with cashback) no rate attains the target at all. -/
theorem c1_scan_bracket (m : Mortgage) (n : ℤ) (fuel : ℕ) (R : ℝ)
    (h : effectiveRateAfter m n fuel = some R) :
    remainingLoan m n - m.cashbalance ≤ effLoan m n (R + 1e-4) :=
  rateScan_sound _ _ fuel 0.1 0.1 R h

/-- C1 witness: on the cashback mortgage at n = 0 the scan returns
-0.0111 with fuel 4, and the probe at -0.0111 + 1e-4 is indeed at or
above the adjusted target. -/
theorem c1_witness :
    remainingLoan (mkMortgage 1000 1000 5 1 0 10 true) 0 -
        (mkMortgage 1000 1000 5 1 0 10 true).cashbalance ≤
      effLoan (mkMortgage 1000 1000 5 1 0 10 true) 0 (-0.0111 + 1e-4) :=
  c1_scan_bracket (mkMortgage 1000 1000 5 1 0 10 true) 0 4 (-0.0111)
    (by
      rw [effectiveRateAfter, remainingLoan_zero]
      exact rateScan_all_dec _ _
        (fun R => by rw [effLoan_zero]; norm_num [mkMortgage]) 0)

/-- C5 counterexample: with no fee and no cashback, the scan at n = 0
compares the constant probe balance initloan with the target initloan,
never raises the rate, and returns 0.1 - 0.1 - 0.01 - 0.001 - 0.0001 =
-0.0111 whatever the nominal rate: for a 5 percent mortgage this is not
within 1e-3 of 5. -/
theorem c5_counterexample :
    effectiveRateAfter (mkMortgage 1000 1000 5 1 0 0 true) 0 4
        = some (-0.0111) ∧
      ¬ |(-0.0111 : ℝ) - 5| ≤ 1e-3 := by
  constructor
  · rw [effectiveRateAfter, remainingLoan_zero]
    exact rateScan_all_dec _ _
      (fun R => by rw [effLoan_zero]; norm_num [mkMortgage]) 0
  · rw [abs_le]
    push_neg
    intro h
    norm_num at h

/-- C5 amended: on a mortgage with zero fee and zero cashback,
effective_rate_after(0) always returns exactly -0.0111, independent of
the nominal rate: the probe balance equals the target, so the scan
takes the lowering branch four times and exits. -/
theorem c5_scan_at_zero_degenerate (housevalue loan rate : ℝ) (term : ℤ)
    (borrowfee : Bool) (k : ℕ) :
    effectiveRateAfter (mkMortgage housevalue loan rate term 0 0 borrowfee)
        0 (k + 4) = some (-0.0111) := by
  rw [effectiveRateAfter, remainingLoan_zero]
  apply rateScan_all_dec
  intro R
  rw [effLoan_zero]
  cases borrowfee <;> norm_num [mkMortgage]

lemma seqRemainingLoan_cons (t : ℤ) (m : Mortgage)
    (rest : List (ℤ × Mortgage)) (n : ℤ) :
    seqRemainingLoan ((t, m) :: rest) n =
      if n - t ≤ 0 then some (remainingLoan m n)
      else seqRemainingLoan rest (n - t) := rfl

lemma buildMortgages_cons (hv L : ℝ) (T : ℤ) (spec : PeriodSpec)
    (rest : List PeriodSpec) :
    buildMortgages hv L T (spec :: rest) =
      (spec.term * 12,
        mkMortgage hv L spec.rate (Int.fdiv T 12) spec.fee spec.cashback
          spec.borrowfee) ::
        buildMortgages hv
          (remainingLoan
            (mkMortgage hv L spec.rate (Int.fdiv T 12) spec.fee spec.cashback
              spec.borrowfee) (spec.term * 12))
          (T - spec.term * 12) rest := rfl

lemma overwriteLast_singleton (r : ℤ) (a : ℤ × Mortgage) :
    overwriteLast r [a] = [(r, a.2)] := by
  obtain ⟨t, m⟩ := a
  simp [overwriteLast]

lemma overwriteLast_cons_of_ne_nil (r : ℤ) (a : ℤ × Mortgage)
    (rest : List (ℤ × Mortgage)) (h : rest ≠ []) :
    overwriteLast r (a :: rest) = a :: overwriteLast (r - a.1) rest := by
  obtain ⟨t, m⟩ := a
  cases rest with
  | nil => exact absurd rfl h
  | cons b rest => simp [overwriteLast]

lemma seqRemainingLoan_boundary (l₁ : List (ℤ × Mortgage)) (t : ℤ)
    (m : Mortgage) (l₂ : List (ℤ × Mortgage)) (h₁ : ∀ p ∈ l₁, 0 < p.1)
    (ht : 0 < t) :
    seqRemainingLoan (l₁ ++ (t, m) :: l₂) ((l₁.map Prod.fst).sum + t)
      = some (remainingLoan m t) := by
  induction l₁ with
  | nil =>
    rw [List.nil_append, List.map_nil, List.sum_nil, zero_add,
      seqRemainingLoan_cons, if_pos (by omega)]
  | cons p l₁ ih =>
    obtain ⟨t₀, m₀⟩ := p
    have hS : 0 ≤ (l₁.map Prod.fst).sum := by
      apply List.sum_nonneg
      intro x hx
      obtain ⟨q, hq, hqx⟩ := List.mem_map.mp hx
      have := h₁ q (List.mem_cons_of_mem _ hq)
      omega
    simp only [List.cons_append, List.map_cons, List.sum_cons,
      seqRemainingLoan_cons]
    rw [if_neg (by omega : ¬(t₀ + (List.map Prod.fst l₁).sum + t - t₀ ≤ 0)),
      show t₀ + (List.map Prod.fst l₁).sum + t - t₀
          = (List.map Prod.fst l₁).sum + t from by ring]
    exact ih fun q hq => h₁ q (List.mem_cons_of_mem _ hq)

lemma overwriteLast_shape (A : List (ℤ × Mortgage)) :
    ∀ (r : ℤ) (e y : ℤ × Mortgage) (B : List (ℤ × Mortgage)),
    ∃ (z : ℤ × Mortgage) (C : List (ℤ × Mortgage)),
      overwriteLast r (A ++ e :: y :: B) = A ++ e :: z :: C ∧ z.2 = y.2 := by
  induction A with
  | nil =>
    intro r e y B
    cases B with
    | nil =>
      refine ⟨(r - e.1, y.2), [], ?_, rfl⟩
      simp only [List.nil_append]
      rw [overwriteLast_cons_of_ne_nil r e [y] (by simp),
        overwriteLast_singleton]
    | cons b B =>
      refine ⟨y, overwriteLast (r - e.1 - y.1) (b :: B), ?_, rfl⟩
      simp only [List.nil_append]
      rw [overwriteLast_cons_of_ne_nil r e (y :: b :: B) (by simp),
        overwriteLast_cons_of_ne_nil (r - e.1) y (b :: B) (by simp)]
  | cons a A ih =>
    intro r e y B
    obtain ⟨z, C, h1, h2⟩ := ih (r - a.1) e y B
    refine ⟨z, C, ?_, h2⟩
    rw [List.cons_append,
      overwriteLast_cons_of_ne_nil r a (A ++ e :: y :: B) (by simp), h1,
      List.cons_append]

lemma buildMortgages_shape (pre : List PeriodSpec) :
    ∀ (hv L : ℝ) (T : ℤ) (s₁ s₂ : PeriodSpec) (post : List PeriodSpec),
    ∃ (A rest : List (ℤ × Mortgage)) (m₁ m₂ : Mortgage),
      buildMortgages hv L T (pre ++ s₁ :: s₂ :: post)
          = A ++ (s₁.term * 12, m₁) :: (s₂.term * 12, m₂) :: rest ∧
        A.map Prod.fst = pre.map (fun s => s.term * 12) ∧
        m₂.loan = remainingLoan m₁ (s₁.term * 12)
          + (if s₂.borrowfee then s₂.fee else 0) := by
  induction pre with
  | nil =>
    intro hv L T s₁ s₂ post
    refine ⟨[],
      buildMortgages hv
        (remainingLoan
          (mkMortgage hv
            (remainingLoan
              (mkMortgage hv L s₁.rate (Int.fdiv T 12) s₁.fee s₁.cashback
                s₁.borrowfee) (s₁.term * 12))
            s₂.rate (Int.fdiv (T - s₁.term * 12) 12) s₂.fee s₂.cashback
            s₂.borrowfee)
          (s₂.term * 12))
        (T - s₁.term * 12 - s₂.term * 12) post,
      mkMortgage hv L s₁.rate (Int.fdiv T 12) s₁.fee s₁.cashback s₁.borrowfee,
      mkMortgage hv
        (remainingLoan
          (mkMortgage hv L s₁.rate (Int.fdiv T 12) s₁.fee s₁.cashback
            s₁.borrowfee) (s₁.term * 12))
        s₂.rate (Int.fdiv (T - s₁.term * 12) 12) s₂.fee s₂.cashback
        s₂.borrowfee,
      ?_, rfl, ?_⟩
    · simp only [List.nil_append]
      rw [buildMortgages_cons, buildMortgages_cons]
    · cases hb : s₂.borrowfee <;> simp [mkMortgage, hb]
  | cons s₀ pre ih =>
    intro hv L T s₁ s₂ post
    obtain ⟨A, rest, m₁, m₂, h1, h2, h3⟩ :=
      ih hv
        (remainingLoan
          (mkMortgage hv L s₀.rate (Int.fdiv T 12) s₀.fee s₀.cashback
            s₀.borrowfee) (s₀.term * 12))
        (T - s₀.term * 12) s₁ s₂ post
    refine ⟨(s₀.term * 12,
        mkMortgage hv L s₀.rate (Int.fdiv T 12) s₀.fee s₀.cashback
          s₀.borrowfee) :: A, rest, m₁, m₂, ?_, ?_, h3⟩
    · rw [List.cons_append, buildMortgages_cons, h1, List.cons_append]
    · rw [List.map_cons, List.map_cons, h2]

/-- C4 amended: at the interior boundary after periods 1..i (all with
positive spec lengths), the sequence remaining_loan equals period i's
model evaluated at its recorded length (the spec length, since only the
last period's recorded length is rewritten); but period i+1's model at 0
equals that boundary value plus its borrowed fee, so continuity holds
only when period i+1 has no borrowed fee. -/
theorem c4_boundary_continuity (hv L : ℝ) (ty : ℤ)
    (pre post : List PeriodSpec) (s₁ s₂ : PeriodSpec)
    (hpre : ∀ s ∈ pre, 0 < s.term) (h₁ : 0 < s₁.term) :
    ∃ (A C : List (ℤ × Mortgage)) (z : ℤ × Mortgage) (m₁ : Mortgage),
      seqMortgages hv L ty (pre ++ s₁ :: s₂ :: post)
          = A ++ (s₁.term * 12, m₁) :: z :: C ∧
        A.map Prod.fst = pre.map (fun s => s.term * 12) ∧
        seqRemainingLoan (seqMortgages hv L ty (pre ++ s₁ :: s₂ :: post))
            ((pre.map (fun s => s.term * 12)).sum + s₁.term * 12)
          = some (remainingLoan m₁ (s₁.term * 12)) ∧
        remainingLoan z.2 0 = remainingLoan m₁ (s₁.term * 12)
          + (if s₂.borrowfee then s₂.fee else 0) := by
  obtain ⟨A, rest, m₁, m₂, hb, hA, hloan⟩ :=
    buildMortgages_shape pre hv L (ty * 12) s₁ s₂ post
  obtain ⟨z, C, ho, hz⟩ :=
    overwriteLast_shape A (ty * 12) (s₁.term * 12, m₁) (s₂.term * 12, m₂)
      rest
  have hseq : seqMortgages hv L ty (pre ++ s₁ :: s₂ :: post)
      = A ++ (s₁.term * 12, m₁) :: z :: C := by
    rw [seqMortgages, hb]
    exact ho
  refine ⟨A, C, z, m₁, hseq, hA, ?_, ?_⟩
  · rw [hseq, ← hA]
    apply seqRemainingLoan_boundary
    · intro p hp
      have hmem : p.1 ∈ pre.map (fun s => s.term * 12) := by
        rw [← hA]
        exact List.mem_map_of_mem _ hp
      obtain ⟨s, hs, hps⟩ := List.mem_map.mp hmem
      have := hpre s hs
      omega
    · omega
  · rw [remainingLoan_zero, hz]
    exact hloan

lemma buildMortgages_nil (hv L : ℝ) (T : ℤ) :
    buildMortgages hv L T [] = [] := rfl

lemma mkMortgage_loan (hv L r : ℝ) (T : ℤ) (fee cb : ℝ) (bf : Bool) :
    (mkMortgage hv L r T fee cb bf).loan = if bf then L + fee else L := rfl

lemma mkMortgage_rate (hv L r : ℝ) (T : ℤ) (fee cb : ℝ) (bf : Bool) :
    (mkMortgage hv L r T fee cb bf).rate
      = (r / 100 + 1) ^ ((1 : ℝ) / 12) := rfl

lemma mkMortgage_repayment (hv L r : ℝ) (T : ℤ) (fee cb : ℝ) (bf : Bool) :
    (mkMortgage hv L r T fee cb bf).repayment
      = (if bf then L + fee else L)
          * ((r / 100 + 1) ^ ((1 : ℝ) / 12)) ^ (T * 12)
          / annuityDen ((r / 100 + 1) ^ ((1 : ℝ) / 12)) (T * 12) := rfl

lemma rate_zero_factor : ((0 : ℝ) / 100 + 1) ^ ((1 : ℝ) / 12) = 1 := by
  norm_num

lemma zero_rate_remaining :
    remainingLoan (mkMortgage 1000 1200 0 2 0 0 true) 12 = 600 := by
  rw [remainingLoan_closed, mkMortgage_loan, mkMortgage_rate,
    mkMortgage_repayment, rate_zero_factor, annuityDen]
  norm_num [show ((2 : ℤ) * 12).toNat = 24 from rfl,
    show ((24 : ℤ)).toNat = 24 from rfl,
    show (12 : ℤ).toNat = 12 from rfl]

lemma zero_rate_tail_remaining :
    remainingLoan (mkMortgage 1000 600 0 1 995 0 true) 0 = 1595 := by
  rw [remainingLoan_zero, mkMortgage_loan]
  norm_num

lemma c4_list_eval :
    seqMortgages 1000 1200 2 [⟨0, 0, 1, 0, true⟩, ⟨0, 995, 1, 0, true⟩]
      = [(12, mkMortgage 1000 1200 0 2 0 0 true),
         (12, mkMortgage 1000 600 0 1 995 0 true)] := by
  rw [seqMortgages, buildMortgages_cons, buildMortgages_cons,
    buildMortgages_nil]
  norm_num [overwriteLast, zero_rate_remaining,
    show Int.fdiv (24 : ℤ) 12 = 2 from rfl,
    show Int.fdiv (12 : ℤ) 12 = 1 from rfl]

/-- C4 counterexample: a two-period sequence at zero rates, total term 2
years, period terms 1 year each, second period fee 995 (borrowed). At
the boundary n = 12 the sequence remaining loan is 600 (period 1 model
after 12 payments), but period 2 model at 0 payments gives 1595 = 600 +
995: the borrowed fee breaks the claimed continuity. -/
theorem c4_counterexample :
    seqRemainingLoan
        (seqMortgages 1000 1200 2 [⟨0, 0, 1, 0, true⟩, ⟨0, 995, 1, 0, true⟩])
        12 = some 600 ∧
      (List.map (fun p => remainingLoan p.2 0)
          (seqMortgages 1000 1200 2
            [⟨0, 0, 1, 0, true⟩, ⟨0, 995, 1, 0, true⟩])).get? 1
        = some 1595 ∧
      (600 : ℝ) ≠ 1595 := by
  refine ⟨?_, ?_, by norm_num⟩
  · rw [c4_list_eval, seqRemainingLoan_cons,
      if_pos (by norm_num : (12 : ℤ) - 12 ≤ 0), zero_rate_remaining]
  · rw [c4_list_eval]
    simp [zero_rate_tail_remaining]

/-- C4 witness: a two-period zero-rate no-fee sequence hits the amended
boundary description. -/
theorem c4_witness :
    ∃ (A C : List (ℤ × Mortgage)) (z : ℤ × Mortgage) (m₁ : Mortgage),
      seqMortgages 1000 1200 2 [⟨0, 0, 1, 0, true⟩, ⟨0, 0, 1, 0, true⟩]
          = A ++ ((12 : ℤ), m₁) :: z :: C ∧
        A.map Prod.fst = [] ∧
        seqRemainingLoan
            (seqMortgages 1000 1200 2
              [⟨0, 0, 1, 0, true⟩, ⟨0, 0, 1, 0, true⟩]) 12
          = some (remainingLoan m₁ 12) ∧
        remainingLoan z.2 0 = remainingLoan m₁ 12 + 0 :=
  c4_boundary_continuity 1000 1200 2 [] [] ⟨0, 0, 1, 0, true⟩
    ⟨0, 0, 1, 0, true⟩ (by simp) (by norm_num)
